import Mathlib

set_option linter.unusedVariables false

/-!
Verification development for the pi5_os kernel core: a shallow embedding of
the process table and round-robin scheduler (src/process.rs), the POSIX-style
signal subsystem (src/signals.rs), the syscall dispatcher's kill path
(src/syscalls.rs), and the GIC interrupt acknowledge/EOI protocol
(src/interrupt.rs), together with theorems settling the specified properties.

Machine integers are modelled as Nat with an explicit modulus at every
operation where the Rust source can wrap (u32 and u64 arithmetic in release
mode wraps).
-/

def U32 : Nat := 4294967296

def U64 : Nat := 18446744073709551616

instance : DecidableEq (Except String Unit) := fun a b =>
  match a, b with
  | .ok (), .ok () => isTrue rfl
  | .error x, .error y =>
    if h : x = y then isTrue (by rw [h]) else isFalse (by intro hh; apply h; injection hh)
  | .ok (), .error _ => isFalse (by intro hh; exact Except.noConfusion hh)
  | .error _, .ok () => isFalse (by intro hh; exact Except.noConfusion hh)

/-- Process states, from `enum ProcessState` in src/process.rs. -/
inductive ProcessState where
  | Ready
  | Running
  | Sleeping
  | Terminated
deriving DecidableEq, Repr

/-- One process-table entry, from `struct Process` in src/process.rs.
All integer fields are machine integers (pid/ppid/time_slice/used_time: u32,
stack_ptr/entry_point: u64, priority: u8) modelled as Nat. -/
structure Process where
  pid : Nat
  ppid : Nat
  state : ProcessState
  stack_ptr : Nat
  entry_point : Nat
  priority : Nat
  time_slice : Nat
  used_time : Nat
deriving DecidableEq, Repr

/-- Placeholder process used as the default of list lookups that the Rust
source performs only at indices known to be in bounds. -/
def defaultProcess : Process :=
  { pid := 0, ppid := 0, state := .Ready, stack_ptr := 0, entry_point := 0,
    priority := 0, time_slice := 0, used_time := 0 }

instance : Inhabited Process := ⟨defaultProcess⟩

/-- Model of `MAX_PROCESSES` in src/process.rs. -/
def MAX_PROCESSES : Nat := 64

/-- Model of `DEFAULT_TIME_SLICE` in src/process.rs. -/
def DEFAULT_TIME_SLICE : Nat := 10

/-- Model of `struct ProcessManager` in src/process.rs: the bounded `heapless::Vec`
of processes is modelled as a list (bounded by the push model below). -/
structure ProcessManager where
  processes : List Process
  current_pid : Nat
  next_pid : Nat
  scheduler_tick : Nat
deriving DecidableEq, Repr

/-- Model of `ProcessManager::new` in src/process.rs. -/
def ProcessManager.new : ProcessManager :=
  { processes := [], current_pid := 0, next_pid := 1, scheduler_tick := 0 }

/-- Model of `heapless::Vec::push` with the result discarded (`let _ = ...push(...)`):
appends when the vector is not at capacity, otherwise leaves it unchanged. -/
def pushBounded (l : List Process) (p : Process) : List Process :=
  if l.length < MAX_PROCESSES then l ++ [p] else l

/-- Model of `ProcessManager::create_process` in src/process.rs.  `is_full()` on a
`heapless::Vec<_, 64>` is `len() == 64`. -/
def ProcessManager.create_process (pm : ProcessManager) (entry_point parent_pid : Nat) :
    Option Nat × ProcessManager :=
  if pm.processes.length = MAX_PROCESSES then
    (none, pm)
  else
    let pid := pm.next_pid
    let p : Process :=
      { pid := pid, ppid := parent_pid, state := .Ready,
        stack_ptr := (0x400000 + pid * 0x100000) % U64,
        entry_point := entry_point, priority := 128,
        time_slice := DEFAULT_TIME_SLICE, used_time := 0 }
    (some pid,
      { pm with next_pid := (pm.next_pid + 1) % U32,
                processes := pushBounded pm.processes p })

/-- Model of `ProcessManager::create_init_process` in src/process.rs. -/
def ProcessManager.create_init_process (pm : ProcessManager) (entry_point : Nat) :
    Option Nat × ProcessManager :=
  ProcessManager.create_process { pm with next_pid := 1 } entry_point 0

/-- Model of `iter().position(pred)`: index of the first element satisfying the
predicate, or `none`. -/
def listPosition (q : Process → Bool) : List Process → Option Nat
  | [] => none
  | p :: ps => if q p then some 0 else (listPosition q ps).map (· + 1)

/-- Replace the first element satisfying the predicate (the mutation pattern
of `get_process_mut` / the `for` loops in src/process.rs). -/
def modifyFirst (q : Process → Bool) (f : Process → Process) : List Process → List Process
  | [] => []
  | p :: ps => if q p then f p :: ps else p :: modifyFirst q f ps

/-- Model of `ProcessManager::set_process_state` in src/process.rs. -/
def ProcessManager.set_process_state (pm : ProcessManager) (pid : Nat) (st : ProcessState) :
    Bool × ProcessManager :=
  ((pm.processes.any fun p => p.pid == pid),
    { pm with processes := modifyFirst (fun p => p.pid == pid) (fun p => { p with state := st }) pm.processes })

/-- Model of `ProcessManager::terminate_process` in src/process.rs: flip the first
entry with this pid to Terminated, then re-parent every child to pid 1. -/
def ProcessManager.terminate_process (pm : ProcessManager) (pid : Nat) :
    Bool × ProcessManager :=
  if pm.processes.any fun p => p.pid == pid then
    let ps1 := modifyFirst (fun p => p.pid == pid) (fun p => { p with state := .Terminated }) pm.processes
    let ps2 := ps1.map fun p => if p.ppid == pid then { p with ppid := 1 } else p
    (true, { pm with processes := ps2 })
  else
    (false, pm)

/-- Model of `ProcessManager::get_process` in src/process.rs. -/
def ProcessManager.get_process (pm : ProcessManager) (pid : Nat) : Option Process :=
  pm.processes.find? fun p => p.pid == pid

/-- The per-process charging step inside `ProcessManager::schedule`
(src/process.rs lines 97-109): `used_time += 1`, then demote / reset when
the slice is exhausted or the process is no longer Running. -/
def chargeProc (p : Process) : Process :=
  if (p.used_time + 1) % U32 ≥ p.time_slice ∨ p.state ≠ .Running then
    { p with state := if p.state = .Running then .Ready else p.state, used_time := 0 }
  else
    { p with used_time := (p.used_time + 1) % U32 }

/-- The first half of `ProcessManager::schedule`: charge one tick to the
process found by `get_process_mut(self.current_pid)` (first entry with the
current pid), if any. -/
def ProcessManager.chargeCurrent (pm : ProcessManager) : ProcessManager :=
  match listPosition (fun p => p.pid == pm.current_pid) pm.processes with
  | none => pm
  | some i => { pm with processes := pm.processes.set i (chargeProc (pm.processes.getD i defaultProcess)) }

/-- Model of `position(|p| p.pid == self.current_pid).unwrap_or(0)` in
`ProcessManager::schedule`. -/
def ProcessManager.findIdxCurrent (pm : ProcessManager) : Nat :=
  match listPosition (fun p => p.pid == pm.current_pid) pm.processes with
  | none => 0
  | some i => i

/-- The scan loop `for i in 1..=len` of `ProcessManager::schedule`: probing
indices `(c + i) % len`, return the first index holding a Ready process. -/
def scanReady (ps : List Process) (c : Nat) : List Nat → Option Nat
  | [] => none
  | i :: rest =>
    if (ps.getD ((c + i) % ps.length) defaultProcess).state = .Ready
    then some ((c + i) % ps.length)
    else scanReady ps c rest

/-- The second half of `ProcessManager::schedule` (src/process.rs lines
111-125): recompute the current index, scan forward (wrapping) for the next
Ready process, promote it to Running and return its pid. -/
def ProcessManager.selectNext (pm2 : ProcessManager) : Option Nat × ProcessManager :=
  match scanReady pm2.processes pm2.findIdxCurrent (List.range' 1 pm2.processes.length) with
  | some idx =>
    let p := pm2.processes.getD idx defaultProcess
    (some p.pid,
      { pm2 with current_pid := p.pid,
                 processes := pm2.processes.set idx { p with state := .Running } })
  | none => (none, pm2)

/-- Model of `ProcessManager::schedule` in src/process.rs: bump the tick counter,
charge the current process, then select the next Ready process. -/
def ProcessManager.schedule (pm : ProcessManager) : Option Nat × ProcessManager :=
  ProcessManager.selectNext
    (ProcessManager.chargeCurrent { pm with scheduler_tick := (pm.scheduler_tick + 1) % U32 })

/-- Number of table entries currently in the Running state. -/
def runningCount (pm : ProcessManager) : Nat :=
  (pm.processes.filter fun p => p.state == ProcessState.Running).length

/-- Panic-instrumented variant of the scan loop: `none` (at the outer level)
models a Rust panic — division/modulo by zero in `(c + i) % len`, or an
out-of-bounds `self.processes[index]`. -/
def scanReadyChecked (ps : List Process) (c : Nat) : List Nat → Option (Option Nat)
  | [] => some none
  | i :: rest =>
    if ps.length = 0 then none
    else if h : (c + i) % ps.length < ps.length then
      if (ps.getD ((c + i) % ps.length) defaultProcess).state = .Ready then
        some (some ((c + i) % ps.length))
      else scanReadyChecked ps c rest
    else none

/-- Panic-instrumented variant of `ProcessManager.selectNext`: the outer
`none` models a panic inside the selection loop or in the indexing of the
promoted entry. -/
def ProcessManager.selectNextChecked (pm2 : ProcessManager) : Option (Option Nat × ProcessManager) :=
  match scanReadyChecked pm2.processes pm2.findIdxCurrent (List.range' 1 pm2.processes.length) with
  | none => none
  | some none => some (none, pm2)
  | some (some idx) =>
    if idx < pm2.processes.length then
      let p := pm2.processes.getD idx defaultProcess
      some (some p.pid,
        { pm2 with current_pid := p.pid,
                   processes := pm2.processes.set idx { p with state := .Running } })
    else none

/-- Panic-instrumented variant of `ProcessManager::schedule`: `none` models
a panic inside the selection loop. -/
def ProcessManager.scheduleChecked (pm : ProcessManager) : Option (Option Nat × ProcessManager) :=
  ProcessManager.selectNextChecked
    (ProcessManager.chargeCurrent { pm with scheduler_tick := (pm.scheduler_tick + 1) % U32 })

/-- Iterate `schedule` n times, collecting the returned pids in order. -/
def scheduleRun : Nat → ProcessManager → List (Option Nat) × ProcessManager
  | 0, pm => ([], pm)
  | n + 1, pm =>
    let r := pm.schedule
    let rest := scheduleRun n r.2
    (r.1 :: rest.1, rest.2)

/-- Model of `enum SignalAction` in src/signals.rs. -/
inductive SignalAction where
  | Default
  | Ignore
  | Terminate
  | Stop
  | Continue
  | Core
  | Custom (handler_addr : Nat)
deriving DecidableEq, Repr

/-- Model of `Signal::is_uncatchable` in src/signals.rs (SIGKILL = 9, SIGSTOP = 19);
signal numbers are the `i32` discriminants of `enum Signal`. -/
def isUncatchable (sig : Nat) : Bool :=
  sig == 9 || sig == 19

/-- Model of `Signal::default_action` in src/signals.rs, on signal numbers
(SIGCHLD = 17, SIGURG = 23, SIGWINCH = 28, SIGSTOP = 19, SIGTSTP = 20,
SIGTTIN = 21, SIGTTOU = 22, SIGCONT = 18). -/
def defaultAction (sig : Nat) : SignalAction :=
  if sig = 17 ∨ sig = 23 ∨ sig = 28 then .Ignore
  else if sig = 19 ∨ sig = 20 ∨ sig = 21 ∨ sig = 22 then .Stop
  else if sig = 18 then .Continue
  else .Terminate

/-- Model of `Signal::from_i32` in src/signals.rs succeeds exactly on 1..=31. -/
def signalValid (sig : Nat) : Bool :=
  1 ≤ sig && sig ≤ 31

/-- Model of `struct PendingSignal` in src/signals.rs. -/
structure PendingSignal where
  signal : Nat
  sender_pid : Nat
deriving DecidableEq, Repr

/-- Model of `MAX_PENDING_SIGNALS` in src/signals.rs. -/
def MAX_PENDING_SIGNALS : Nat := 32

/-- Model of `struct SignalHandler` in src/signals.rs (`signal_mask` is a u64
bitmap; `signal_handlers` is the 32-entry action array). -/
structure SignalHandler where
  signal_mask : Nat
  pending_signals : List PendingSignal
  signal_handlers : List SignalAction
deriving DecidableEq, Repr

/-- Model of `SignalHandler::new` in src/signals.rs: all handlers default, then each
valid signal 1..=31 gets its POSIX default disposition at index `sig - 1`. -/
def SignalHandler.new : SignalHandler :=
  { signal_mask := 0,
    pending_signals := [],
    signal_handlers := (List.range 32).map fun j =>
      if j + 1 ≤ 31 then defaultAction (j + 1) else .Default }

/-- Model of `SignalHandler::pending_signals_count` in src/signals.rs. -/
def SignalHandler.pending_signals_count (sh : SignalHandler) : Nat :=
  sh.pending_signals.length

/-- Model of `SignalHandler::set_signal_handler` in src/signals.rs. -/
def SignalHandler.set_signal_handler (sh : SignalHandler) (sig : Nat) (action : SignalAction) :
    Except String Unit × SignalHandler :=
  if isUncatchable sig then
    (.error ("Cannot catch SIGKILL or SIGSTOP"), sh)
  else
    (.ok (), { sh with signal_handlers := sh.signal_handlers.set (sig - 1) action })

/-- Model of `SignalHandler::block_signal` in src/signals.rs: sets the mask bit for
catchable signals, silently does nothing (and returns unit) for 9/19. -/
def SignalHandler.block_signal (sh : SignalHandler) (sig : Nat) : SignalHandler :=
  if ¬ isUncatchable sig then
    { sh with signal_mask := sh.signal_mask ||| (1 <<< (sig - 1)) }
  else sh

/-- A record of one `deliver_signal` invocation (the source prints one
"Delivering signal ..." UART line per invocation; this list models that
ordered output). -/
structure Delivery where
  target : Nat
  signal : Nat
  sender : Nat
deriving DecidableEq, Repr

/-- The state `deliver_signal` can write: the global process manager plus
the ordered delivery trace. -/
structure PmTrace where
  pm : ProcessManager
  log : List Delivery
deriving DecidableEq, Repr

/-- Model of `SignalHandler::terminate_process` in src/signals.rs. -/
def sigTerminate (t : PmTrace) (target : Nat) : Except String Unit × PmTrace :=
  let r := t.pm.terminate_process target
  (if r.1 then .ok () else .error ("Failed to terminate process"), { t with pm := r.2 })

/-- Model of `SignalHandler::stop_process` in src/signals.rs. -/
def sigStop (t : PmTrace) (target : Nat) : Except String Unit × PmTrace :=
  let r := t.pm.set_process_state target .Sleeping
  (if r.1 then .ok () else .error ("Failed to stop process"), { t with pm := r.2 })

/-- Model of `SignalHandler::continue_process` in src/signals.rs. -/
def sigContinue (t : PmTrace) (target : Nat) : Except String Unit × PmTrace :=
  let r := t.pm.set_process_state target .Ready
  (if r.1 then .ok () else .error ("Failed to continue process"), { t with pm := r.2 })

/-- Model of `SignalHandler::core_dump_process` in src/signals.rs: diagnostic dump
(UART only), then terminate. -/
def sigCoreDump (t : PmTrace) (target : Nat) : Except String Unit × PmTrace :=
  sigTerminate t target

/-- Model of `SignalHandler::default_signal_action` in src/signals.rs. -/
def defaultSignalAction (t : PmTrace) (target sig : Nat) : Except String Unit × PmTrace :=
  match defaultAction sig with
  | .Terminate => sigTerminate t target
  | .Stop => sigStop t target
  | .Continue => sigContinue t target
  | .Ignore => (.ok (), t)
  | _ => sigTerminate t target

/-- The "Delivering signal ..." UART line at the top of
`SignalHandler::deliver_signal`, modelled as one trace entry. -/
def logDeliver (t : PmTrace) (target sig sender : Nat) : PmTrace :=
  { t with log := t.log ++ [⟨target, sig, sender⟩] }

/-- Model of `SignalHandler::deliver_signal` in src/signals.rs: dispatch on the
handler table entry `signal_handlers[sig - 1]`.  Appends one entry to the
delivery trace (the source's "Delivering signal" UART line). -/
def deliver_signal (handlers : List SignalAction) (t : PmTrace) (target sig sender : Nat) :
    Except String Unit × PmTrace :=
  match handlers.getD (sig - 1) .Default with
  | .Default => defaultSignalAction (logDeliver t target sig sender) target sig
  | .Ignore => (.ok (), logDeliver t target sig sender)
  | .Terminate => sigTerminate (logDeliver t target sig sender) target
  | .Stop => sigStop (logDeliver t target sig sender) target
  | .Continue => sigContinue (logDeliver t target sig sender) target
  | .Core => sigCoreDump (logDeliver t target sig sender) target
  | .Custom _ => (.ok (), logDeliver t target sig sender)

/-- The combined kernel state the signal subsystem touches: the global
process manager, the global signal handler, and the delivery trace. -/
structure Kernel where
  pm : ProcessManager
  sh : SignalHandler
  log : List Delivery
deriving DecidableEq, Repr

/-- Model of `heapless::Vec::push` (result discarded) on the pending-signal queue. -/
def pushPending (l : List PendingSignal) (p : PendingSignal) : List PendingSignal :=
  if l.length < MAX_PENDING_SIGNALS then l ++ [p] else l

/-- Model of `SignalHandler::send_signal` in src/signals.rs: a blocked catchable
signal is queued (rejected when the queue is full); otherwise it is
delivered immediately. -/
def Kernel.send_signal (k : Kernel) (target sig sender : Nat) : Except String Unit × Kernel :=
  if (k.sh.signal_mask &&& (1 <<< (sig - 1))) ≠ 0 ∧ ¬ isUncatchable sig then
    if k.sh.pending_signals.length ≠ MAX_PENDING_SIGNALS then
      (.ok (), { k with sh := { k.sh with pending_signals := pushPending k.sh.pending_signals ⟨sig, sender⟩ } })
    else
      (.error ("Too many pending signals"), k)
  else
    let r := deliver_signal k.sh.signal_handlers ⟨k.pm, k.log⟩ target sig sender
    (r.1, { k with pm := r.2.pm, log := r.2.log })

/-- The `while i < len` loop of `SignalHandler::check_pending_signals` in
src/signals.rs: deliver (to pid 0, "the current process") and remove every
entry whose signal is no longer blocked, keeping the rest in order.  The
mask and handler table are loop-invariant in the source (nothing in the
loop body writes them), so they are passed as fixed arguments. -/
def checkPendingLoop (handlers : List SignalAction) (mask : Nat) (t : PmTrace)
    (pending : List PendingSignal) (i : Nat) : List PendingSignal × PmTrace :=
  if h : i < pending.length then
    if mask &&& (1 <<< ((pending.get ⟨i, h⟩).signal - 1)) = 0 then
      checkPendingLoop handlers mask
        (deliver_signal handlers t 0 (pending.get ⟨i, h⟩).signal
          (pending.get ⟨i, h⟩).sender_pid).2
        (pending.eraseIdx i) i
    else
      checkPendingLoop handlers mask t pending (i + 1)
  else
    (pending, t)
termination_by pending.length - i
decreasing_by
  · have := List.length_eraseIdx_of_lt h
    omega
  · omega

/-- Model of `SignalHandler::unblock_signal` in src/signals.rs: clear the mask bit
(u64 complement modelled as xor with the all-ones 64-bit mask), then
re-scan the pending queue. -/
def Kernel.unblock_signal (k : Kernel) (sig : Nat) : Kernel :=
  { pm := (checkPendingLoop k.sh.signal_handlers
      (k.sh.signal_mask &&& ((U64 - 1) ^^^ (1 <<< (sig - 1))))
      ⟨k.pm, k.log⟩ k.sh.pending_signals 0).2.pm,
    sh := { k.sh with
      signal_mask := k.sh.signal_mask &&& ((U64 - 1) ^^^ (1 <<< (sig - 1))),
      pending_signals := (checkPendingLoop k.sh.signal_handlers
        (k.sh.signal_mask &&& ((U64 - 1) ^^^ (1 <<< (sig - 1))))
        ⟨k.pm, k.log⟩ k.sh.pending_signals 0).1 },
    log := (checkPendingLoop k.sh.signal_handlers
      (k.sh.signal_mask &&& ((U64 - 1) ^^^ (1 <<< (sig - 1))))
      ⟨k.pm, k.log⟩ k.sh.pending_signals 0).2.log }

namespace Signals

/-- Module-level `send_signal` in src/signals.rs (validates via `from_i32`). -/
def send_signal (k : Kernel) (target signal_num sender : Nat) : Except String Unit × Kernel :=
  if signalValid signal_num then k.send_signal target signal_num sender
  else (.error ("Invalid signal number"), k)

/-- Module-level `set_signal_handler` in src/signals.rs. -/
def set_signal_handler (k : Kernel) (signal_num : Nat) (action : SignalAction) :
    Except String Unit × Kernel :=
  if signalValid signal_num then
    let r := k.sh.set_signal_handler signal_num action
    (r.1, { k with sh := r.2 })
  else (.error ("Invalid signal number"), k)

/-- Module-level `block_signal` in src/signals.rs: for a valid signal the
inner call returns unit and the wrapper unconditionally returns `Ok(())`. -/
def block_signal (k : Kernel) (signal_num : Nat) : Except String Unit × Kernel :=
  if signalValid signal_num then (.ok (), { k with sh := k.sh.block_signal signal_num })
  else (.error ("Invalid signal number"), k)

/-- Module-level `unblock_signal` in src/signals.rs. -/
def unblock_signal (k : Kernel) (signal_num : Nat) : Except String Unit × Kernel :=
  if signalValid signal_num then (.ok (), k.unblock_signal signal_num)
  else (.error ("Invalid signal number"), k)

end Signals

namespace InterruptController

/-- Model of `InterruptController::handle_interrupt` in src/interrupt.rs as a function
of the value read from GICC_IAR; the second component is the ordered list of
values written to GICC_EOIR during the call. -/
def handle_interrupt (iar : Nat) : Option Nat × List Nat :=
  let irq := iar &&& 0x3FF
  if irq ≥ 1020 then (none, [])
  else (some irq, [iar])

end InterruptController

namespace Syscalls

/-- Model of `sys_kill` in src/syscalls.rs: ignores the signal argument and directly
calls `PROCESS_MANAGER.terminate_process`, returning 0 or -3 (ESRCH). -/
def sys_kill (k : Kernel) (pid sig : Nat) : Int × Kernel :=
  let r := k.pm.terminate_process pid
  (if r.1 then 0 else -3, { k with pm := r.2 })

/-- Modelled from the spec: the kill routing the spec describes for syscall
129 — route through the Signal Subsystem's `send_signal` with the calling
process as sender, returning 0 on success and the POSIX "no such process"
code (-3, ESRCH) on failure.  This definition follows the spec's words and
exists to be compared with `sys_kill` above, which is the code. -/
def sys_kill_spec (k : Kernel) (pid sig : Nat) : Int × Kernel :=
  let caller := k.pm.current_pid
  let r := Signals.send_signal k pid sig caller
  (match r.1 with
   | .ok _ => 0
   | .error _ => -3, r.2)

end Syscalls

/-- Concrete kernel separating `sys_kill` from the spec's routing: the init
process (pid 1, Ready) is current and process 2 (Ready) is the target. -/
def killDemoKernel : Kernel :=
  { pm := { processes := [⟨1, 0, .Ready, 0x500000, 0, 128, 10, 0⟩,
                          ⟨2, 1, .Ready, 0x600000, 0, 128, 10, 0⟩],
            current_pid := 1, next_pid := 3, scheduler_tick := 0 },
    sh := SignalHandler.new,
    log := [] }

/-- Kernel states reachable from an initialised signal subsystem
(`init_signals` installs `SignalHandler.new`) through the signal API; the
process table and delivery trace may additionally evolve arbitrarily (the
process-table and syscall APIs never touch the signal state). -/
inductive Reachable : Kernel → Prop where
  | init (pm : ProcessManager) : Reachable ⟨pm, SignalHandler.new, []⟩
  | procStep (k : Kernel) (pm' : ProcessManager) (log' : List Delivery) :
      Reachable k → Reachable ⟨pm', k.sh, log'⟩
  | sendStep (k : Kernel) (target signum sender : Nat) :
      Reachable k → Reachable (Signals.send_signal k target signum sender).2
  | setHandlerStep (k : Kernel) (signum : Nat) (a : SignalAction) :
      Reachable k → Reachable (Signals.set_signal_handler k signum a).2
  | blockStep (k : Kernel) (signum : Nat) :
      Reachable k → Reachable (Signals.block_signal k signum).2
  | unblockStep (k : Kernel) (signum : Nat) :
      Reachable k → Reachable (Signals.unblock_signal k signum).2

/-- Concrete reachable kernel (one Ready init process) used as the witness
input for the SIGKILL theorem. -/
def sigkillDemoPM : ProcessManager :=
  ⟨[⟨1, 0, .Ready, 0x500000, 0, 128, 10, 0⟩], 1, 2, 0⟩

def sigkillDemoKernel : Kernel :=
  ⟨sigkillDemoPM, SignalHandler.new, []⟩

/-- Deliver a list of pending entries in order, each to pid 0, the way the
`check_pending_signals` loop does for the entries it removes. -/
def deliverPendingList (handlers : List SignalAction) (t : PmTrace) :
    List PendingSignal → PmTrace
  | [] => t
  | p :: ps => deliverPendingList handlers (deliver_signal handlers t 0 p.signal p.sender_pid).2 ps

/-- Concrete kernel used as the witness input for the FIFO theorem. -/
def fifoDemoKernel : Kernel :=
  ⟨ProcessManager.new, SignalHandler.new, []⟩

/-- Concrete Running process (3 of 10 ticks used) for the quota witness. -/
def quotaDemoProc : Process :=
  ⟨1, 0, .Running, 0, 0, 128, 10, 3⟩

def quotaDemoPM : ProcessManager :=
  ⟨[quotaDemoProc], 1, 2, 0⟩

/-- The round-robin invariant after k calls to `schedule` on a table whose
pid sequence is P, starting from current index c: the pid sequence is
unchanged, the current process is the one promoted on call k (table index
(c + k) % |P|, still Running), and every index not yet visited by calls
1..k still holds a Ready process. -/
structure RRInv (P : List Nat) (c k : Nat) (s : ProcessManager) : Prop where
  pids : s.processes.map Process.pid = P
  cur : s.current_pid = P.getD ((c + k) % P.length) 0
  running : (s.processes.getD ((c + k) % P.length) defaultProcess).state = .Running
  unvisited : ∀ j, j < P.length →
    (∀ i, 1 ≤ i → i ≤ k → j ≠ (c + i) % P.length) →
    (s.processes.getD j defaultProcess).state = .Ready

/-- Concrete two-process all-Ready table for the round-robin witness. -/
def rrDemoPM : ProcessManager :=
  ⟨[⟨1, 0, .Ready, 0, 0, 128, 10, 0⟩, ⟨2, 1, .Ready, 0, 0, 128, 10, 0⟩], 0, 3, 0⟩

/-! ## Theorems -/

/-- Setting one index does not change `getD` at another. -/
theorem getD_set_ne {α : Type} (l : List α) (d a : α) {i j : Nat} (h : i ≠ j) :
    (l.set i a).getD j d = l.getD j d := by
  simp [List.getD_eq_getElem?_getD, List.getElem?_set_ne h]

/-- The function `send_signal` never writes the handler table. -/
theorem send_signal_handlers (k : Kernel) (t g s : Nat) :
    (k.send_signal t g s).2.sh.signal_handlers = k.sh.signal_handlers := by
  unfold Kernel.send_signal
  split
  · split <;> rfl
  · rfl

/-- The handler-table entry for SIGKILL is `Terminate` in every reachable
kernel state: it is initialised to SIGKILL's default action and
`set_signal_handler` refuses to overwrite it. -/
theorem reachable_sigkill_handler {k : Kernel} (hk : Reachable k) :
    k.sh.signal_handlers.getD 8 .Default = .Terminate := by
  induction hk with
  | init pm =>
    exact (by decide : SignalHandler.new.signal_handlers.getD 8 .Default = .Terminate)
  | procStep k pm' log' _ ih => exact ih
  | sendStep k t g s _ ih =>
    unfold Signals.send_signal
    split
    · rw [send_signal_handlers]
      exact ih
    · exact ih
  | setHandlerStep k g a _ ih =>
    unfold Signals.set_signal_handler
    split
    · next hv =>
      show (k.sh.set_signal_handler g a).2.signal_handlers.getD 8 .Default = .Terminate
      unfold SignalHandler.set_signal_handler
      split
      · exact ih
      · next hu =>
        have hg : g ≠ 9 := by
          intro h
          subst h
          exact hu (by decide)
        have h8 : g - 1 ≠ 8 := by
          simp [signalValid] at hv
          omega
        show (k.sh.signal_handlers.set (g - 1) a).getD 8 .Default = .Terminate
        exact (getD_set_ne _ _ _ h8).trans ih
    · exact ih
  | blockStep k g _ ih =>
    unfold Signals.block_signal
    split
    · unfold SignalHandler.block_signal
      split <;> exact ih
    · exact ih
  | unblockStep k g _ ih =>
    unfold Signals.unblock_signal
    split
    · exact ih
    · exact ih

/-- Claim C7: in every reachable kernel state — any reachable mask and any
reachable handler table — `send_signal(target, 9, sender)` (SIGKILL) is
never enqueued into the pending queue (the entire signal-handler state is
untouched) and always resolves to the Terminate action, invoking
`terminate_process` on the target, regardless of whether SIGKILL's bit is
set in the signal mask. -/
theorem sigkill_always_terminates (k : Kernel) (hk : Reachable k) (target sender : Nat) :
    (k.send_signal target 9 sender).2.sh = k.sh ∧
    (k.send_signal target 9 sender).2.pm = (k.pm.terminate_process target).2 ∧
    (k.send_signal target 9 sender).1
      = (if (k.pm.terminate_process target).1 then Except.ok ()
         else Except.error ("Failed to terminate process")) ∧
    (k.send_signal target 9 sender).2.log = k.log ++ [⟨target, 9, sender⟩] := by
  have hh := reachable_sigkill_handler hk
  unfold Kernel.send_signal
  rw [if_neg (by simp [isUncatchable])]
  unfold deliver_signal
  rw [show (9 : Nat) - 1 = 8 from rfl, hh]
  unfold sigTerminate
  refine ⟨rfl, rfl, rfl, rfl⟩

/-- Witness for `sigkill_always_terminates` at a concrete reachable kernel. -/
theorem sigkill_always_terminates_witness :
    (sigkillDemoKernel.send_signal 1 9 5).2.sh = sigkillDemoKernel.sh ∧
    (sigkillDemoKernel.send_signal 1 9 5).2.pm = (sigkillDemoKernel.pm.terminate_process 1).2 ∧
    (sigkillDemoKernel.send_signal 1 9 5).1
      = (if (sigkillDemoKernel.pm.terminate_process 1).1 then Except.ok ()
         else Except.error ("Failed to terminate process")) ∧
    (sigkillDemoKernel.send_signal 1 9 5).2.log = sigkillDemoKernel.log ++ [⟨1, 9, 5⟩] :=
  sigkill_always_terminates sigkillDemoKernel (Reachable.init sigkillDemoPM) 1 5

/-- For an in-bounds index, `getD` is plain indexing. -/
theorem getD_lt {α : Type} (l : List α) (d : α) {i : Nat} (h : i < l.length) :
    l.getD i d = l[i] := by
  simp [List.getD_eq_getElem?_getD, List.getElem?_eq_getElem h]

/-- A successful scan returns an in-bounds index. -/
theorem scanReady_lt {ps : List Process} {c idx : Nat} (hps : 0 < ps.length) :
    ∀ {l : List Nat}, scanReady ps c l = some idx → idx < ps.length := by
  intro l
  induction l with
  | nil => intro h; exact absurd h (by simp [scanReady])
  | cons i rest ih =>
    intro h
    rw [scanReady] at h
    by_cases hst : (ps.getD ((c + i) % ps.length) defaultProcess).state = ProcessState.Ready
    · rw [if_pos hst] at h
      cases h
      exact Nat.mod_lt _ hps
    · rw [if_neg hst] at h
      exact ih h

/-- On a nonempty table the panic-instrumented scan loop never panics and
agrees with the plain scan. -/
theorem scanReadyChecked_eq {ps : List Process} {c : Nat} (hps : 0 < ps.length) :
    ∀ l, scanReadyChecked ps c l = some (scanReady ps c l) := by
  intro l
  induction l with
  | nil => rfl
  | cons i rest ih =>
    rw [scanReadyChecked, scanReady]
    have hidx : (c + i) % ps.length < ps.length := Nat.mod_lt _ hps
    rw [if_neg (by omega), dif_pos hidx]
    by_cases hst : (ps.getD ((c + i) % ps.length) defaultProcess).state = ProcessState.Ready
    · rw [if_pos hst, if_pos hst]
    · rw [if_neg hst, if_neg hst]
      exact ih

/-- The panic-instrumented selection phase never panics. -/
theorem selectNextChecked_eq (pm2 : ProcessManager) :
    pm2.selectNextChecked = some pm2.selectNext := by
  unfold ProcessManager.selectNextChecked ProcessManager.selectNext
  rcases Nat.eq_zero_or_pos pm2.processes.length with hz | hpos
  · rw [List.length_eq_zero.mp hz]
    rfl
  · rw [scanReadyChecked_eq hpos]
    rcases hscan : scanReady pm2.processes pm2.findIdxCurrent
        (List.range' 1 pm2.processes.length) with _ | idx
    · rfl
    · have hlt := scanReady_lt hpos hscan
      simp [hlt]

/-- Claim C10: `schedule` is a total function — the panic-instrumented
variant (which models modulo-by-zero and out-of-bounds indexing as panics)
never panics and agrees with `schedule` on every state — and on the empty
table it returns `none` after incrementing only the scheduler tick counter
(the wrapping index computation is never evaluated with length zero because
the scan loop body never runs). -/
theorem schedule_total_no_panic (pm : ProcessManager) :
    pm.scheduleChecked = some pm.schedule ∧
    (pm.processes = [] →
      pm.schedule = (none, { pm with scheduler_tick := (pm.scheduler_tick + 1) % U32 })) := by
  constructor
  · unfold ProcessManager.scheduleChecked ProcessManager.schedule
    exact selectNextChecked_eq _
  · intro h
    unfold ProcessManager.schedule ProcessManager.selectNext ProcessManager.chargeCurrent
      ProcessManager.findIdxCurrent
    simp [h, listPosition, scanReady]

/-- Witness for `schedule_total_no_panic` at the empty initial manager. -/
theorem schedule_total_no_panic_witness :
    ProcessManager.new.scheduleChecked = some ProcessManager.new.schedule ∧
    ProcessManager.new.schedule
      = (none, { ProcessManager.new with scheduler_tick := (0 + 1) % U32 }) :=
  ⟨(schedule_total_no_panic ProcessManager.new).1,
   (schedule_total_no_panic ProcessManager.new).2 rfl⟩

/-- Claim C9: when the process table is at its bounded capacity of 64
entries, `create_process` rejects with `none` and leaves the entire
`ProcessManager` unchanged — no entry is added and the next-pid counter is
not incremented, so a later successful `create_process` assigns the pid it
would have assigned had the rejected call never happened. -/
theorem create_process_full_rejects (pm : ProcessManager) (entry parent : Nat)
    (h : pm.processes.length = MAX_PROCESSES) :
    pm.create_process entry parent = (none, pm) := by
  simp [ProcessManager.create_process, h]

/-- Witness for `create_process_full_rejects` at a concrete full table. -/
theorem create_process_full_rejects_witness :
    (List.replicate 64 defaultProcess).length = MAX_PROCESSES ∧
    ProcessManager.create_process ⟨List.replicate 64 defaultProcess, 0, 7, 3⟩ 5 1
      = (none, ⟨List.replicate 64 defaultProcess, 0, 7, 3⟩) :=
  ⟨by simp [MAX_PROCESSES],
   create_process_full_rejects ⟨List.replicate 64 defaultProcess, 0, 7, 3⟩ 5 1
     (by simp [MAX_PROCESSES])⟩

/-- Claim C1 (code bug): starting from the empty table, the operation
sequence create_init_process; create_process; schedule; schedule leaves
two processes in the `Running` state simultaneously: `schedule` promotes
the next Ready process without demoting a still-Running current process
whose quota is not exhausted. -/
theorem schedule_two_running :
    runningCount
      ((ProcessManager.new.create_init_process 0x80000).2.create_process
          0x80000 1).2.schedule.2.schedule.2 = 2 := by
  decide

/-- Claim C3 counterexample: the module-level `block_signal` on SIGKILL (9)
returns `Ok(())` and silently leaves the state unchanged, instead of
failing with an explicit rejection as the claim states. -/
theorem block_signal_sigkill_silently_succeeds :
    Signals.block_signal ⟨ProcessManager.new, SignalHandler.new, []⟩ 9
      = (Except.ok (), ⟨ProcessManager.new, SignalHandler.new, []⟩) := by
  decide

/-- Claim C3 (amended): for signals 9 (SIGKILL) and 19 (SIGSTOP),
`set_signal_handler` always fails with an explicit rejection and leaves the
handler table unchanged; `block_signal` leaves the signal mask unchanged
but silently succeeds (the inner call is a no-op and the module wrapper
returns `Ok(())`) rather than rejecting. -/
theorem uncatchable_signal_policy (sh : SignalHandler) (a : SignalAction) (k : Kernel) :
    sh.set_signal_handler 9 a = (.error ("Cannot catch SIGKILL or SIGSTOP"), sh) ∧
    sh.set_signal_handler 19 a = (.error ("Cannot catch SIGKILL or SIGSTOP"), sh) ∧
    sh.block_signal 9 = sh ∧
    sh.block_signal 19 = sh ∧
    Signals.block_signal k 9 = (.ok (), k) ∧
    Signals.block_signal k 19 = (.ok (), k) := by
  refine ⟨?_, ?_, ?_, ?_, ?_, ?_⟩ <;>
    simp [SignalHandler.set_signal_handler, SignalHandler.block_signal,
      Signals.block_signal, isUncatchable, signalValid]

/-- Claim C4 counterexample: a raw acknowledge value of 1024 is ≥ 1020, yet
`handle_interrupt` does not treat it as spurious — it returns interrupt 0
and performs one EOI write — because the code compares the masked 10-bit ID
`iar &&& 0x3FF`, not the raw read value. -/
theorem handle_interrupt_spurious_raw_value_not_ignored :
    1020 ≤ 1024 ∧ InterruptController.handle_interrupt 1024 = (some 0, [1024]) := by
  decide

/-- Claim C4 (amended): spuriousness is judged on the 10-bit interrupt ID
`iar &&& 0x3FF`, not on the raw acknowledge value: when the ID is ≥ 1020
the call returns "no interrupt" with zero EOI writes; otherwise it performs
exactly one EOI write, with exactly the raw value read from the acknowledge
register, and returns the ID. -/
theorem handle_interrupt_ack_eoi_pairing (iar : Nat) :
    (iar &&& 0x3FF ≥ 1020 → InterruptController.handle_interrupt iar = (none, [])) ∧
    (iar &&& 0x3FF < 1020 →
      InterruptController.handle_interrupt iar = (some (iar &&& 0x3FF), [iar])) := by
  unfold InterruptController.handle_interrupt
  constructor <;> intro h
  · rw [if_pos h]
  · rw [if_neg (by omega)]

/-- Witness for `handle_interrupt_ack_eoi_pairing`: spurious ID 1023 and
real interrupt 64 (the timer line). -/
theorem handle_interrupt_ack_eoi_pairing_witness :
    InterruptController.handle_interrupt 1023 = (none, []) ∧
    InterruptController.handle_interrupt 64 = (some 64, [64]) :=
  ⟨(handle_interrupt_ack_eoi_pairing 1023).1 (by decide),
   (handle_interrupt_ack_eoi_pairing 64).2 (by decide)⟩

/-- Claim C2 counterexample: kill(2, 17) (SIGCHLD) terminates the target in
the code, while the routing the claim describes (through `send_signal` with
the caller as sender) would resolve SIGCHLD to Ignore and leave the target
Ready — so `sys_kill` does not route through `send_signal`. -/
theorem sys_kill_not_routed_through_send_signal :
    ((Syscalls.sys_kill killDemoKernel 2 17).2.pm.get_process 2).map Process.state
      = some ProcessState.Terminated ∧
    ((Syscalls.sys_kill_spec killDemoKernel 2 17).2.pm.get_process 2).map Process.state
      = some ProcessState.Ready ∧
    Syscalls.sys_kill killDemoKernel 2 17 ≠ Syscalls.sys_kill_spec killDemoKernel 2 17 := by
  decide

/-- Claim C2 (amended): `sys_kill` ignores the signal argument and
terminates the target directly via `terminate_process` — not via
`send_signal` — returning 0 when the target pid exists and -3 (ESRCH, "no
such process") when it does not; the signal-subsystem state is untouched. -/
theorem sys_kill_direct_terminate (k : Kernel) (pid sig sig' : Nat) :
    (Syscalls.sys_kill k pid sig).1
        = (if k.pm.processes.any (fun p => p.pid == pid) then (0 : Int) else -3) ∧
    (Syscalls.sys_kill k pid sig).2.pm = (k.pm.terminate_process pid).2 ∧
    (Syscalls.sys_kill k pid sig).2.sh = k.sh ∧
    (Syscalls.sys_kill k pid sig).2.log = k.log ∧
    Syscalls.sys_kill k pid sig = Syscalls.sys_kill k pid sig' := by
  unfold Syscalls.sys_kill ProcessManager.terminate_process
  by_cases h : k.pm.processes.any (fun p => p.pid == pid) <;> simp [h]

/-- Removing the entry at index i does not change the first i entries. -/
theorem take_eraseIdx {α : Type} : ∀ (l : List α) (i : Nat), (l.eraseIdx i).take i = l.take i
  | [], _ => rfl
  | _ :: _, 0 => rfl
  | x :: xs, i + 1 => by
    simp only [List.eraseIdx, List.take_succ_cons]
    rw [take_eraseIdx xs i]

/-- After removing the entry at index i, dropping i entries is dropping
i + 1 entries of the original. -/
theorem drop_eraseIdx {α : Type} : ∀ (l : List α) (i : Nat), (l.eraseIdx i).drop i = l.drop (i + 1)
  | [], _ => by simp
  | _ :: _, 0 => rfl
  | x :: xs, i + 1 => by
    simp only [List.eraseIdx, List.drop_succ_cons]
    rw [drop_eraseIdx xs i]

/-- Each `deliver_signal` call appends exactly one entry to the delivery
trace, whatever the resolved action does to the process table. -/
theorem deliver_signal_log (handlers : List SignalAction) (t : PmTrace) (tgt g s : Nat) :
    (deliver_signal handlers t tgt g s).2.log = t.log ++ [⟨tgt, g, s⟩] := by
  unfold deliver_signal
  split <;> first
    | rfl
    | (unfold defaultSignalAction; split <;> rfl)

/-- The delivery trace of a batch delivery: one entry per pending signal,
in list order. -/
theorem deliverPendingList_log (handlers : List SignalAction) :
    ∀ (l : List PendingSignal) (t : PmTrace),
      (deliverPendingList handlers t l).log
        = t.log ++ l.map (fun p => (⟨0, p.signal, p.sender_pid⟩ : Delivery))
  | [], t => by simp [deliverPendingList]
  | p :: ps, t => by
    rw [deliverPendingList, deliverPendingList_log handlers ps _, deliver_signal_log]
    simp

/-- Setting a bit makes the bit test nonzero. -/
theorem or_bit_and_bit_ne (m j : Nat) : (m ||| (1 <<< j)) &&& (1 <<< j) ≠ 0 := by
  rw [Nat.shiftLeft_eq, one_mul, Nat.and_two_pow]
  have h : (m ||| 2 ^ j).testBit j = true := by
    simp [Nat.testBit_or, Nat.testBit_two_pow_self]
  rw [h]
  simp

/-- Clearing a bit (u64 complement via xor with the 64-bit all-ones mask)
makes the bit test zero, for bit positions below 64. -/
theorem cleared_bit_and (m j : Nat) (hj : j < 64) :
    (m &&& ((U64 - 1) ^^^ (1 <<< j))) &&& (1 <<< j) = 0 := by
  rw [Nat.shiftLeft_eq, one_mul, Nat.and_two_pow]
  have h1 : (U64 - 1).testBit j = true := by
    rw [show U64 - 1 = 2 ^ 64 - 1 by norm_num [U64], Nat.testBit_two_pow_sub_one]
    simpa using hj
  simp [Nat.testBit_and, Nat.testBit_xor, h1, Nat.testBit_two_pow_self]

/-- Full characterisation of the `check_pending_signals` loop from position
i: entries before i are kept, still-blocked entries at or after i are kept
in their original relative order, and the no-longer-blocked entries at or
after i are delivered (removed) in FIFO order. -/
theorem checkPendingLoop_spec (handlers : List SignalAction) (mask : Nat) :
    ∀ (pending : List PendingSignal) (i : Nat) (t : PmTrace),
      checkPendingLoop handlers mask t pending i
        = (pending.take i
             ++ (pending.drop i).filter (fun p => mask &&& (1 <<< (p.signal - 1)) != 0),
           deliverPendingList handlers t
             ((pending.drop i).filter (fun p => mask &&& (1 <<< (p.signal - 1)) == 0))) := by
  have H : ∀ (n : Nat) (pending : List PendingSignal) (i : Nat) (t : PmTrace),
      pending.length - i ≤ n →
      checkPendingLoop handlers mask t pending i
        = (pending.take i
             ++ (pending.drop i).filter (fun p => mask &&& (1 <<< (p.signal - 1)) != 0),
           deliverPendingList handlers t
             ((pending.drop i).filter (fun p => mask &&& (1 <<< (p.signal - 1)) == 0))) := by
    intro n
    induction n with
    | zero =>
      intro pending i t hle
      rw [checkPendingLoop, dif_neg (by omega)]
      have hd : pending.drop i = [] := List.drop_eq_nil_of_le (by omega)
      have ht : pending.take i = pending := List.take_of_length_le (by omega)
      simp [hd, ht, deliverPendingList]
    | succ n ih =>
      intro pending i t hle
      rw [checkPendingLoop]
      by_cases h : i < pending.length
      · rw [dif_pos h]
        have hdrop : pending.drop i = pending.get ⟨i, h⟩ :: pending.drop (i + 1) := by
          rw [List.get_eq_getElem]
          exact (List.getElem_cons_drop pending i h).symm
        by_cases hb : mask &&& (1 <<< ((pending.get ⟨i, h⟩).signal - 1)) = 0
        · rw [if_pos hb]
          rw [ih (pending.eraseIdx i) i _ (by rw [List.length_eraseIdx_of_lt h]; omega)]
          have hb1 : (mask &&& (1 <<< ((pending.get ⟨i, h⟩).signal - 1)) != 0) = false := by
            simpa using hb
          have hb2 : (mask &&& (1 <<< ((pending.get ⟨i, h⟩).signal - 1)) == 0) = true := by
            simpa using hb
          rw [take_eraseIdx, drop_eraseIdx, hdrop, List.filter_cons, List.filter_cons,
            hb1, hb2]
          simp [deliverPendingList]
        · rw [if_neg hb]
          rw [ih pending (i + 1) t (by omega)]
          have hb1 : (mask &&& (1 <<< ((pending.get ⟨i, h⟩).signal - 1)) != 0) = true := by
            simpa using hb
          have hb2 : ¬ ((mask &&& (1 <<< ((pending.get ⟨i, h⟩).signal - 1)) == 0) = true) := by
            simpa using hb
          have htake : pending.take (i + 1) = pending.take i ++ [pending.get ⟨i, h⟩] := by
            rw [List.take_succ, List.get_eq_getElem, List.getElem?_eq_getElem h]
            rfl
          rw [hdrop, List.filter_cons, List.filter_cons, if_pos hb1, if_neg hb2,
            htake, List.append_assoc]
          rfl
      · rw [dif_neg h]
        have hd : pending.drop i = [] := List.drop_eq_nil_of_le (by omega)
        have ht : pending.take i = pending := List.take_of_length_le (by omega)
        simp [hd, ht, deliverPendingList]
  intro pending i t
  exact H (pending.length - i) pending i t (le_refl _)

/-- Claim C6: for a blockable signal A sent to a kernel whose pending queue
is empty: after block_signal(A), two send_signal calls for A succeed by
enqueueing pending entries in send order, and unblock_signal(A) then
delivers both queued occurrences in that same (FIFO) order — the delivery
trace grows by exactly the two entries in send order — leaving
pending_signals_count() at 0; in general the re-scan keeps exactly the
still-blocked entries in their original relative order. -/
theorem blocked_fifo_delivery (k : Kernel) (A tgt1 tgt2 s1 s2 : Nat)
    (hA1 : 1 ≤ A) (hA31 : A ≤ 31) (h9 : A ≠ 9) (h19 : A ≠ 19)
    (hpend : k.sh.pending_signals = []) :
    (Signals.send_signal (Signals.block_signal k A).2 tgt1 A s1).1 = .ok () ∧
    (Signals.send_signal
      (Signals.send_signal (Signals.block_signal k A).2 tgt1 A s1).2 tgt2 A s2).1 = .ok () ∧
    (Signals.send_signal
      (Signals.send_signal (Signals.block_signal k A).2 tgt1 A s1).2 tgt2 A s2).2.sh.pending_signals
      = [⟨A, s1⟩, ⟨A, s2⟩] ∧
    (Signals.unblock_signal
      (Signals.send_signal
        (Signals.send_signal (Signals.block_signal k A).2 tgt1 A s1).2 tgt2 A s2).2
      A).2.sh.pending_signals_count = 0 ∧
    (Signals.unblock_signal
      (Signals.send_signal
        (Signals.send_signal (Signals.block_signal k A).2 tgt1 A s1).2 tgt2 A s2).2
      A).2.log = k.log ++ [⟨0, A, s1⟩, ⟨0, A, s2⟩] ∧
    (∀ (handlers : List SignalAction) (mask : Nat) (t : PmTrace) (pending : List PendingSignal),
      (checkPendingLoop handlers mask t pending 0).1
        = pending.filter fun p => mask &&& (1 <<< (p.signal - 1)) != 0) := by
  have hvalid : signalValid A = true := by
    simp [signalValid]
    omega
  have hunc : isUncatchable A = false := by
    simp [isUncatchable, h9, h19]
  have hblock : (Signals.block_signal k A).2
      = { k with sh := { k.sh with
            signal_mask := k.sh.signal_mask ||| (1 <<< (A - 1)) } } := by
    simp [Signals.block_signal, hvalid, SignalHandler.block_signal, hunc]
  have hsend : ∀ (kk : Kernel) (tgt snd : Nat),
      kk.sh.signal_mask = k.sh.signal_mask ||| (1 <<< (A - 1)) →
      kk.sh.pending_signals.length < 32 →
      Signals.send_signal kk tgt A snd
        = (.ok (), { kk with sh := { kk.sh with
              pending_signals := kk.sh.pending_signals ++ [⟨A, snd⟩] } }) := by
    intro kk tgt snd hmask hlen
    have hbit : kk.sh.signal_mask &&& (1 <<< (A - 1)) ≠ 0 := by
      rw [hmask]
      exact or_bit_and_bit_ne _ _
    have hlen' : kk.sh.pending_signals.length ≠ 32 := by omega
    simp [Signals.send_signal, hvalid, Kernel.send_signal, hbit, hunc, hlen',
      pushPending, hlen, MAX_PENDING_SIGNALS]
  have hs1 : Signals.send_signal (Signals.block_signal k A).2 tgt1 A s1
      = (.ok (), { k with sh := { k.sh with
            signal_mask := k.sh.signal_mask ||| (1 <<< (A - 1)),
            pending_signals := [⟨A, s1⟩] } }) := by
    rw [hblock, hsend _ tgt1 s1 rfl (by simp [hpend])]
    simp [hpend]
  have hs2 : Signals.send_signal
      (Signals.send_signal (Signals.block_signal k A).2 tgt1 A s1).2 tgt2 A s2
      = (.ok (), { k with sh := { k.sh with
            signal_mask := k.sh.signal_mask ||| (1 <<< (A - 1)),
            pending_signals := [⟨A, s1⟩, ⟨A, s2⟩] } }) := by
    rw [hs1, hsend _ tgt2 s2 rfl (by simp)]
    rfl
  have hcleared :
      (k.sh.signal_mask ||| (1 <<< (A - 1))) &&& ((U64 - 1) ^^^ (1 <<< (A - 1)))
        &&& (1 <<< (A - 1)) = 0 :=
    cleared_bit_and _ (A - 1) (by omega)
  have hfb :
      (((k.sh.signal_mask ||| (1 <<< (A - 1))) &&& ((U64 - 1) ^^^ (1 <<< (A - 1))))
        &&& (1 <<< (A - 1)) != 0) = false := by
    simp [hcleared]
  have hfo :
      (((k.sh.signal_mask ||| (1 <<< (A - 1))) &&& ((U64 - 1) ^^^ (1 <<< (A - 1))))
        &&& (1 <<< (A - 1)) == 0) = true := by
    simp [hcleared]
  have hunb : (Signals.unblock_signal
      (Signals.send_signal
        (Signals.send_signal (Signals.block_signal k A).2 tgt1 A s1).2 tgt2 A s2).2 A).2
      = Kernel.unblock_signal
          { k with sh := { k.sh with
              signal_mask := k.sh.signal_mask ||| (1 <<< (A - 1)),
              pending_signals := [⟨A, s1⟩, ⟨A, s2⟩] } } A := by
    rw [hs2]
    simp [Signals.unblock_signal, hvalid]
  refine ⟨by rw [hs1], by rw [hs2], by rw [hs2],
    ?_, ?_,
    fun handlers mask t pending => by rw [checkPendingLoop_spec]; simp⟩
  · rw [hunb]
    unfold Kernel.unblock_signal
    rw [checkPendingLoop_spec]
    simp [SignalHandler.pending_signals_count, List.filter, hfb]
  · rw [hunb]
    unfold Kernel.unblock_signal
    rw [checkPendingLoop_spec, deliverPendingList_log]
    simp [List.filter, hfo]

/-- Witness for `blocked_fifo_delivery`: signal 2 (SIGINT) blocked, sent
twice (senders 7 then 8), then unblocked, on a fresh kernel. -/
theorem blocked_fifo_delivery_witness :
    (Signals.send_signal (Signals.block_signal fifoDemoKernel 2).2 1 2 7).1 = .ok () ∧
    (Signals.send_signal
      (Signals.send_signal (Signals.block_signal fifoDemoKernel 2).2 1 2 7).2 1 2 8).1
      = .ok () ∧
    (Signals.send_signal
      (Signals.send_signal (Signals.block_signal fifoDemoKernel 2).2 1 2 7).2 1 2
      8).2.sh.pending_signals = [⟨2, 7⟩, ⟨2, 8⟩] ∧
    (Signals.unblock_signal
      (Signals.send_signal
        (Signals.send_signal (Signals.block_signal fifoDemoKernel 2).2 1 2 7).2 1 2 8).2
      2).2.sh.pending_signals_count = 0 ∧
    (Signals.unblock_signal
      (Signals.send_signal
        (Signals.send_signal (Signals.block_signal fifoDemoKernel 2).2 1 2 7).2 1 2 8).2
      2).2.log = fifoDemoKernel.log ++ [⟨0, 2, 7⟩, ⟨0, 2, 8⟩] := by
  have h := blocked_fifo_delivery fifoDemoKernel 2 1 1 7 8
    (by decide) (by decide) (by decide) (by decide) (by decide)
  exact ⟨h.1, h.2.1, h.2.2.1, h.2.2.2.1, h.2.2.2.2.1⟩

/-- A successful `position` search returns an in-bounds index. -/
theorem listPosition_lt {q : Process → Bool} :
    ∀ {l : List Process} {i : Nat}, listPosition q l = some i → i < l.length := by
  intro l
  induction l with
  | nil => intro i h; exact absurd h (by simp [listPosition])
  | cons x xs ih =>
    intro i h
    rw [listPosition] at h
    by_cases hx : q x
    · rw [if_pos hx] at h
      cases h
      simp
    · rw [if_neg hx] at h
      rcases Option.map_eq_some'.mp h with ⟨j, hj, rfl⟩
      have := ih hj
      simp
      omega

/-- Reading back a just-set in-bounds index yields the new value. -/
theorem getD_set_self {α : Type} (l : List α) (d a : α) {i : Nat} (h : i < l.length) :
    (l.set i a).getD i d = a := by
  simp [List.getD_eq_getElem?_getD, List.getElem?_set_self h]

/-- The scan loop only ever selects an index holding a Ready process. -/
theorem scanReady_state {ps : List Process} {c idx : Nat} :
    ∀ {l : List Nat}, scanReady ps c l = some idx →
      (ps.getD idx defaultProcess).state = ProcessState.Ready := by
  intro l
  induction l with
  | nil => intro h; exact absurd h (by simp [scanReady])
  | cons i rest ih =>
    intro h
    rw [scanReady] at h
    by_cases hst : (ps.getD ((c + i) % ps.length) defaultProcess).state = ProcessState.Ready
    · rw [if_pos hst] at h
      cases h
      exact hst
    · rw [if_neg hst] at h
      exact ih h

/-- Claim C8: on a `schedule()` call whose current process exists, is
Running, and has `used_time < time_slice` (with `time_slice` a u32 value):
the charging phase increments its `used_time` by exactly 1 and demotes it
to Ready with `used_time` reset to 0 exactly when the incremented
`used_time` reaches `time_slice` — never before, and (since
`used_time + 1 ≤ time_slice`) never more than one tick after; through the
full `schedule()` call the entry's `used_time` is `used_time + 1` when the
quota is not yet reached (and the entry is then still the unmodified
Running process) and 0 when it yields at the quota. -/
theorem schedule_quota_enforcement (pm : ProcessManager) (i : Nat) (p : Process)
    (hfind : listPosition (fun q => q.pid == pm.current_pid) pm.processes = some i)
    (hget : pm.processes.getD i defaultProcess = p)
    (hrun : p.state = .Running)
    (hlt : p.used_time < p.time_slice)
    (hts : p.time_slice < U32) :
    pm.chargeCurrent.processes
      = pm.processes.set i
          (if p.used_time + 1 = p.time_slice
           then { p with state := .Ready, used_time := 0 }
           else { p with used_time := p.used_time + 1 }) ∧
    ((pm.schedule.2.processes.getD i defaultProcess).used_time
      = if p.used_time + 1 = p.time_slice then 0 else p.used_time + 1) ∧
    (p.used_time + 1 < p.time_slice →
      pm.schedule.2.processes.getD i defaultProcess
        = { p with used_time := p.used_time + 1 }) := by
  have hilt : i < pm.processes.length := listPosition_lt hfind
  have hmod : (p.used_time + 1) % U32 = p.used_time + 1 := Nat.mod_eq_of_lt (by omega)
  have hcharge : chargeProc p
      = (if p.used_time + 1 = p.time_slice
         then { p with state := .Ready, used_time := 0 }
         else { p with used_time := p.used_time + 1 }) := by
    unfold chargeProc
    rw [hmod, hrun]
    by_cases he : p.used_time + 1 = p.time_slice
    · rw [if_pos he, if_pos (Or.inl (Nat.le_of_eq he.symm))]
      simp
    · rw [if_neg he, if_neg (by simp; omega)]
  have h1 : pm.chargeCurrent.processes
      = pm.processes.set i
          (if p.used_time + 1 = p.time_slice
           then { p with state := .Ready, used_time := 0 }
           else { p with used_time := p.used_time + 1 }) := by
    simp only [ProcessManager.chargeCurrent, hfind]
    rw [hget, hcharge]
  have h1' : (ProcessManager.chargeCurrent
        { pm with scheduler_tick := (pm.scheduler_tick + 1) % U32 }).processes
      = pm.processes.set i
          (if p.used_time + 1 = p.time_slice
           then { p with state := .Ready, used_time := 0 }
           else { p with used_time := p.used_time + 1 }) := by
    simp only [ProcessManager.chargeCurrent, hfind]
    rw [hget, hcharge]
  refine ⟨h1, ?_, ?_⟩
  all_goals
    unfold ProcessManager.schedule ProcessManager.selectNext
  · rcases hscan : scanReady
        (ProcessManager.chargeCurrent
          { pm with scheduler_tick := (pm.scheduler_tick + 1) % U32 }).processes
        (ProcessManager.chargeCurrent
          { pm with scheduler_tick := (pm.scheduler_tick + 1) % U32 }).findIdxCurrent
        (List.range' 1 (ProcessManager.chargeCurrent
          { pm with scheduler_tick := (pm.scheduler_tick + 1) % U32 }).processes.length)
      with _ | idx
    · show ((ProcessManager.chargeCurrent
            { pm with scheduler_tick := (pm.scheduler_tick + 1) % U32 }).processes.getD i
            defaultProcess).used_time = _
      rw [h1', getD_set_self _ _ _ hilt]
      by_cases he : p.used_time + 1 = p.time_slice <;> simp [he]
    · by_cases hidx : idx = i
      · subst hidx
        show (((ProcessManager.chargeCurrent
              { pm with scheduler_tick := (pm.scheduler_tick + 1) % U32 }).processes.set idx
              _).getD idx defaultProcess).used_time = _
        rw [h1']
        rw [getD_set_self _ _ _ (by rw [List.length_set]; exact hilt)]
        rw [getD_set_self _ _ _ hilt]
        by_cases he : p.used_time + 1 = p.time_slice <;> simp [he]
      · show (((ProcessManager.chargeCurrent
              { pm with scheduler_tick := (pm.scheduler_tick + 1) % U32 }).processes.set idx
              _).getD i defaultProcess).used_time = _
        rw [getD_set_ne _ _ _ hidx, h1', getD_set_self _ _ _ hilt]
        by_cases he : p.used_time + 1 = p.time_slice <;> simp [he]
  · intro hstrict
    have he : ¬ (p.used_time + 1 = p.time_slice) := by omega
    rcases hscan : scanReady
        (ProcessManager.chargeCurrent
          { pm with scheduler_tick := (pm.scheduler_tick + 1) % U32 }).processes
        (ProcessManager.chargeCurrent
          { pm with scheduler_tick := (pm.scheduler_tick + 1) % U32 }).findIdxCurrent
        (List.range' 1 (ProcessManager.chargeCurrent
          { pm with scheduler_tick := (pm.scheduler_tick + 1) % U32 }).processes.length)
      with _ | idx
    · show ((ProcessManager.chargeCurrent
            { pm with scheduler_tick := (pm.scheduler_tick + 1) % U32 }).processes.getD i
            defaultProcess) = _
      rw [h1', getD_set_self _ _ _ hilt, if_neg he]
    · have hidx : idx ≠ i := by
        intro hEq
        subst hEq
        have hs := scanReady_state hscan
        rw [h1', getD_set_self _ _ _ hilt, if_neg he] at hs
        rw [show ({ p with used_time := p.used_time + 1 } : Process).state = p.state from rfl,
          hrun] at hs
        exact ProcessState.noConfusion hs
      show (((ProcessManager.chargeCurrent
            { pm with scheduler_tick := (pm.scheduler_tick + 1) % U32 }).processes.set idx
            _).getD i defaultProcess) = _
      rw [getD_set_ne _ _ _ hidx, h1', getD_set_self _ _ _ hilt, if_neg he]

/-- Witness for `schedule_quota_enforcement`: a Running process with 3 of
10 ticks used is charged to 4 and not demoted. -/
theorem schedule_quota_enforcement_witness :
    quotaDemoPM.chargeCurrent.processes
      = quotaDemoPM.processes.set 0
          (if quotaDemoProc.used_time + 1 = quotaDemoProc.time_slice
           then { quotaDemoProc with state := .Ready, used_time := 0 }
           else { quotaDemoProc with used_time := quotaDemoProc.used_time + 1 }) ∧
    ((quotaDemoPM.schedule.2.processes.getD 0 defaultProcess).used_time
      = if quotaDemoProc.used_time + 1 = quotaDemoProc.time_slice then 0
        else quotaDemoProc.used_time + 1) ∧
    quotaDemoPM.schedule.2.processes.getD 0 defaultProcess
      = { quotaDemoProc with used_time := quotaDemoProc.used_time + 1 } := by
  have h := schedule_quota_enforcement quotaDemoPM 0 quotaDemoProc
    (by decide) (by decide) (by decide) (by decide) (by decide)
  exact ⟨h.1, h.2.1, h.2.2 (by decide)⟩

/-- Charging preserves the pid. -/
theorem chargeProc_pid (p : Process) : (chargeProc p).pid = p.pid := by
  unfold chargeProc
  split <;> rfl

/-- Charging a Ready process keeps it Ready (with `used_time` reset). -/
theorem chargeProc_ready (p : Process) (h : p.state = .Ready) :
    (chargeProc p).state = .Ready := by
  unfold chargeProc
  rw [h]
  rw [if_pos (Or.inr (by intro hh; exact ProcessState.noConfusion hh))]
  simp [h]

/-- The charging phase does not move the current pid. -/
theorem chargeCurrent_current (pm : ProcessManager) :
    pm.chargeCurrent.current_pid = pm.current_pid := by
  unfold ProcessManager.chargeCurrent
  split <;> rfl

/-- A successful `position` search found a matching element. -/
theorem listPosition_getD {q : Process → Bool} :
    ∀ {l : List Process} {i : Nat}, listPosition q l = some i →
      q (l.getD i defaultProcess) = true := by
  intro l
  induction l with
  | nil => intro i h; exact absurd h (by simp [listPosition])
  | cons x xs ih =>
    intro i h
    rw [listPosition] at h
    by_cases hx : q x
    · rw [if_pos hx] at h
      cases h
      exact hx
    · rw [if_neg hx] at h
      rcases Option.map_eq_some'.mp h with ⟨j, hj, rfl⟩
      exact ih hj

/-- Writing back the element already present leaves the list unchanged. -/
theorem set_getD_self : ∀ (l : List Nat) {m : Nat}, m < l.length →
    l.set m (l.getD m 0) = l
  | [], m => by intro h; exact absurd h (by simp)
  | x :: xs, 0 => by intro h; rfl
  | x :: xs, m + 1 => by
    intro h
    show x :: xs.set m (xs.getD m 0) = x :: xs
    rw [set_getD_self xs (by simpa using h)]

/-- The `getD` of a mapped pid list agrees with the pid of the `getD` entry. -/
theorem pidAt_eq {l : List Process} {j : Nat} (h : j < l.length) :
    (l.map Process.pid).getD j 0 = (l.getD j defaultProcess).pid := by
  rw [getD_lt _ _ (by simpa using h), getD_lt _ _ h]
  simp

/-- With pairwise-distinct pids, searching for the pid of entry m finds m. -/
theorem listPosition_pid_nodup :
    ∀ {l : List Process}, (l.map Process.pid).Nodup →
      ∀ {m : Nat}, m < l.length →
      listPosition (fun p => p.pid == (l.getD m defaultProcess).pid) l = some m := by
  intro l
  induction l with
  | nil => intro _ m hm; exact absurd hm (by simp)
  | cons x xs ih =>
    intro hnd m hm
    rcases m with _ | j
    · rw [listPosition, if_pos (by simp)]
    · have hj : j < xs.length := by simpa using hm
      have hne : x.pid ≠ (xs.getD j defaultProcess).pid := by
        intro hEq
        have hmem : (xs.getD j defaultProcess).pid ∈ xs.map Process.pid := by
          rw [getD_lt _ _ hj]
          exact List.mem_map_of_mem _ (List.getElem_mem hj)
        rw [List.map_cons] at hnd
        exact (List.nodup_cons.mp hnd).1 (hEq ▸ hmem)
      rw [listPosition]
      rw [if_neg (by simpa using hne)]
      have := ih (by rw [List.map_cons] at hnd; exact (List.nodup_cons.mp hnd).2) hj
      rw [show ((x :: xs).getD (j + 1) defaultProcess) = xs.getD j defaultProcess from rfl,
        this]
      rfl

/-- Two wrapped offsets from the same base differ when their distance is a
nonzero amount below the modulus. -/
theorem addModNe {N c i j : Nat} (hij : i < j) (hjN : j - i < N) :
    (c + j) % N ≠ (c + i) % N := by
  intro h
  have h2 : i ≡ j [MOD N] := Nat.ModEq.add_left_cancel' c h.symm
  have h3 : N ∣ j - i := (Nat.modEq_iff_dvd' (Nat.le_of_lt hij)).mp h2
  have h4 : N ≤ j - i := Nat.le_of_dvd (by omega) h3
  omega

/-- One round-robin step: under the invariant after 1 ≤ k < N calls, the
next `schedule()` call promotes the process at table index (c + k + 1) % N
and re-establishes the invariant. -/
theorem rr_step {P : List Nat} {c k : Nat} {s : ProcessManager}
    (hnd : P.Nodup) (hk : 1 ≤ k) (hkN : k < P.length)
    (inv : RRInv P c k s) :
    s.schedule.1 = some (P.getD ((c + (k + 1)) % P.length) 0) ∧
    RRInv P c (k + 1) s.schedule.2 := by
  have hlen : s.processes.length = P.length := by
    rw [← inv.pids, List.length_map]
  have hN : 0 < P.length := by omega
  have hm : (c + k) % P.length < P.length := Nat.mod_lt _ hN
  have hm' : (c + (k + 1)) % P.length < P.length := Nat.mod_lt _ hN
  have hpidAt : ∀ j, j < P.length →
      P.getD j 0 = (s.processes.getD j defaultProcess).pid := by
    intro j hj
    rw [← inv.pids]
    exact pidAt_eq (by omega)
  have hfind : listPosition (fun p => p.pid == s.current_pid) s.processes
      = some ((c + k) % P.length) := by
    rw [inv.cur, hpidAt _ hm]
    exact listPosition_pid_nodup (by rw [inv.pids]; exact hnd) (by omega)
  have hq_pid : (chargeProc (s.processes.getD ((c + k) % P.length) defaultProcess)).pid
      = P.getD ((c + k) % P.length) 0 := by
    rw [chargeProc_pid, hpidAt _ hm]
  have hcharge_proc : (ProcessManager.chargeCurrent
        { s with scheduler_tick := (s.scheduler_tick + 1) % U32 }).processes
      = s.processes.set ((c + k) % P.length)
          (chargeProc (s.processes.getD ((c + k) % P.length) defaultProcess)) := by
    simp only [ProcessManager.chargeCurrent, hfind]
  have hpids2 : (s.processes.set ((c + k) % P.length)
        (chargeProc (s.processes.getD ((c + k) % P.length) defaultProcess))).map Process.pid
      = P := by
    rw [List.map_set, hq_pid, inv.pids]
    exact set_getD_self P hm
  have hlen2 : (s.processes.set ((c + k) % P.length)
        (chargeProc (s.processes.getD ((c + k) % P.length) defaultProcess))).length
      = P.length := by
    rw [List.length_set]
    omega
  have hgetq : ((s.processes.set ((c + k) % P.length)
        (chargeProc (s.processes.getD ((c + k) % P.length) defaultProcess))).getD
        ((c + k) % P.length) defaultProcess).pid = P.getD ((c + k) % P.length) 0 := by
    rw [getD_set_self _ _ _ (by omega)]
    exact hq_pid
  have hfind2 : listPosition (fun p => p.pid == s.current_pid)
      (s.processes.set ((c + k) % P.length)
        (chargeProc (s.processes.getD ((c + k) % P.length) defaultProcess)))
      = some ((c + k) % P.length) := by
    rw [inv.cur, ← hgetq]
    exact listPosition_pid_nodup (by rw [hpids2]; exact hnd) (by rw [hlen2]; exact hm)
  have hfi2 : (ProcessManager.chargeCurrent
        { s with scheduler_tick := (s.scheduler_tick + 1) % U32 }).findIdxCurrent
      = (c + k) % P.length := by
    unfold ProcessManager.findIdxCurrent
    simp only [chargeCurrent_current, hcharge_proc, hfind2]
  have hprobe_ne : (c + (k + 1)) % P.length ≠ (c + k) % P.length :=
    addModNe (by omega) (by omega)
  have hunvis : (s.processes.getD ((c + (k + 1)) % P.length) defaultProcess).state
      = .Ready := by
    refine inv.unvisited _ hm' ?_
    intro i hi1 hik
    exact addModNe (by omega) (by omega)
  have hidx : ((c + k) % P.length + 1) % P.length = (c + (k + 1)) % P.length := by
    rw [Nat.mod_add_mod, Nat.add_assoc]
  have hscan : scanReady
      (s.processes.set ((c + k) % P.length)
        (chargeProc (s.processes.getD ((c + k) % P.length) defaultProcess)))
      ((c + k) % P.length)
      (List.range' 1 (s.processes.set ((c + k) % P.length)
        (chargeProc (s.processes.getD ((c + k) % P.length) defaultProcess))).length)
      = some ((c + (k + 1)) % P.length) := by
    obtain ⟨n0, hn0⟩ : ∃ n0, P.length = n0 + 1 := ⟨P.length - 1, by omega⟩
    have hr : List.range' 1 P.length = 1 :: List.range' 2 n0 := by
      rw [hn0, List.range'_succ]
    rw [hlen2, hr, scanReady, hlen2, hidx,
      getD_set_ne _ _ _ (Ne.symm hprobe_ne), if_pos hunvis]
  have hp' : ((s.processes.set ((c + k) % P.length)
        (chargeProc (s.processes.getD ((c + k) % P.length) defaultProcess))).getD
        ((c + (k + 1)) % P.length) defaultProcess)
      = s.processes.getD ((c + (k + 1)) % P.length) defaultProcess :=
    getD_set_ne _ _ _ (Ne.symm hprobe_ne)
  unfold ProcessManager.schedule ProcessManager.selectNext
  simp only [hcharge_proc, hfi2, hscan]
  constructor
  · show some ((s.processes.set ((c + k) % P.length)
        (chargeProc (s.processes.getD ((c + k) % P.length) defaultProcess))).getD
        ((c + (k + 1)) % P.length) defaultProcess).pid = _
    rw [hp', ← hpidAt _ hm']
  · refine ⟨?_, ?_, ?_, ?_⟩
    · show ((s.processes.set ((c + k) % P.length)
          (chargeProc (s.processes.getD ((c + k) % P.length) defaultProcess))).set
          ((c + (k + 1)) % P.length) _).map Process.pid = P
      rw [List.map_set, hpids2]
      rw [show ({ (s.processes.set ((c + k) % P.length)
            (chargeProc (s.processes.getD ((c + k) % P.length) defaultProcess))).getD
            ((c + (k + 1)) % P.length) defaultProcess with
            state := ProcessState.Running } : Process).pid
          = ((s.processes.set ((c + k) % P.length)
            (chargeProc (s.processes.getD ((c + k) % P.length) defaultProcess))).getD
            ((c + (k + 1)) % P.length) defaultProcess).pid from rfl]
      rw [hp', ← hpidAt _ hm']
      exact set_getD_self P hm'
    · show ((s.processes.set ((c + k) % P.length)
          (chargeProc (s.processes.getD ((c + k) % P.length) defaultProcess))).getD
          ((c + (k + 1)) % P.length) defaultProcess).pid = _
      rw [hp', ← hpidAt _ hm']
    · show (((s.processes.set ((c + k) % P.length)
          (chargeProc (s.processes.getD ((c + k) % P.length) defaultProcess))).set
          ((c + (k + 1)) % P.length) _).getD ((c + (k + 1)) % P.length)
          defaultProcess).state = ProcessState.Running
      rw [getD_set_self _ _ _ (by rw [hlen2]; exact hm')]
    · intro j hj havoid
      have hjm' : j ≠ (c + (k + 1)) % P.length := havoid (k + 1) (by omega) (by omega)
      have hjm : j ≠ (c + k) % P.length := havoid k hk (by omega)
      show (((s.processes.set ((c + k) % P.length)
          (chargeProc (s.processes.getD ((c + k) % P.length) defaultProcess))).set
          ((c + (k + 1)) % P.length) _).getD j defaultProcess).state = ProcessState.Ready
      rw [getD_set_ne _ _ _ (Ne.symm hjm'), getD_set_ne _ _ _ (Ne.symm hjm)]
      exact inv.unvisited j hj (fun i h1 h2 => havoid i h1 (by omega))

/-- Base selection step: on an all-Ready table (after the charging phase,
which preserves Ready states), the first `schedule()` call promotes the
process at index (c + 1) % N and establishes the invariant at k = 1. -/
theorem rr_base_aux {P : List Nat} {c : Nat} {pm2 : ProcessManager}
    (hpids : pm2.processes.map Process.pid = P)
    (hc : pm2.findIdxCurrent = c)
    (hN : 0 < P.length)
    (hready2 : ∀ j, j < P.length → (pm2.processes.getD j defaultProcess).state = .Ready) :
    pm2.selectNext.1 = some (P.getD ((c + 1) % P.length) 0) ∧
    RRInv P c 1 pm2.selectNext.2 := by
  have hlen : pm2.processes.length = P.length := by
    rw [← hpids, List.length_map]
  have hm' : (c + 1) % P.length < P.length := Nat.mod_lt _ hN
  have hpidAt : ∀ j, j < P.length →
      P.getD j 0 = (pm2.processes.getD j defaultProcess).pid := by
    intro j hj
    rw [← hpids]
    exact pidAt_eq (by omega)
  have hscan : scanReady pm2.processes c (List.range' 1 pm2.processes.length)
      = some ((c + 1) % P.length) := by
    obtain ⟨n0, hn0⟩ : ∃ n0, P.length = n0 + 1 := ⟨P.length - 1, by omega⟩
    have hr : List.range' 1 P.length = 1 :: List.range' 2 n0 := by
      rw [hn0, List.range'_succ]
    rw [hlen, hr, scanReady, hlen, if_pos (hready2 _ hm')]
  unfold ProcessManager.selectNext
  simp only [hc, hscan]
  constructor
  · show some (pm2.processes.getD ((c + 1) % P.length) defaultProcess).pid = _
    rw [← hpidAt _ hm']
  · refine ⟨?_, ?_, ?_, ?_⟩
    · show (pm2.processes.set ((c + 1) % P.length) _).map Process.pid = P
      rw [List.map_set, hpids]
      rw [show ({ pm2.processes.getD ((c + 1) % P.length) defaultProcess with
            state := ProcessState.Running } : Process).pid
          = (pm2.processes.getD ((c + 1) % P.length) defaultProcess).pid from rfl]
      rw [← hpidAt _ hm']
      exact set_getD_self P hm'
    · show (pm2.processes.getD ((c + 1) % P.length) defaultProcess).pid = _
      rw [← hpidAt _ hm']
    · show ((pm2.processes.set ((c + 1) % P.length) _).getD ((c + 1) % P.length)
          defaultProcess).state = ProcessState.Running
      rw [getD_set_self _ _ _ (by omega)]
    · intro j hj havoid
      have hjm' : j ≠ (c + 1) % P.length := havoid 1 (by omega) (by omega)
      show ((pm2.processes.set ((c + 1) % P.length) _).getD j defaultProcess).state
          = ProcessState.Ready
      rw [getD_set_ne _ _ _ (Ne.symm hjm')]
      exact hready2 j hj

/-- The first `schedule()` call on an all-Ready table with distinct pids. -/
theorem rr_base {pm : ProcessManager}
    (hne : 1 ≤ pm.processes.length)
    (hready : ∀ p ∈ pm.processes, p.state = ProcessState.Ready)
    (hnd : (pm.processes.map Process.pid).Nodup) :
    pm.schedule.1 = some ((pm.processes.map Process.pid).getD
      ((pm.findIdxCurrent + 1) % (pm.processes.map Process.pid).length) 0) ∧
    RRInv (pm.processes.map Process.pid) pm.findIdxCurrent 1 pm.schedule.2 := by
  have hlenP : (pm.processes.map Process.pid).length = pm.processes.length :=
    List.length_map _ _
  have hreadyD : ∀ j, j < pm.processes.length →
      (pm.processes.getD j defaultProcess).state = .Ready := by
    intro j hj
    rw [getD_lt _ _ hj]
    exact hready _ (List.getElem_mem hj)
  unfold ProcessManager.schedule
  rcases hpos : listPosition (fun p => p.pid == pm.current_pid) pm.processes with _ | c0
  · have hcc : ProcessManager.chargeCurrent
        { pm with scheduler_tick := (pm.scheduler_tick + 1) % U32 }
        = { pm with scheduler_tick := (pm.scheduler_tick + 1) % U32 } := by
      unfold ProcessManager.chargeCurrent
      simp only [hpos]
    have hfi : ProcessManager.findIdxCurrent
        { pm with scheduler_tick := (pm.scheduler_tick + 1) % U32 } = pm.findIdxCurrent := by
      unfold ProcessManager.findIdxCurrent
      simp only [hpos]
    rw [hcc]
    exact rr_base_aux rfl hfi (by omega) (fun j hj => hreadyD j (by omega))
  · have hc0 : c0 < pm.processes.length := listPosition_lt hpos
    have hcur : pm.current_pid = (pm.processes.getD c0 defaultProcess).pid := by
      have h := listPosition_getD hpos
      simp only [beq_iff_eq] at h
      exact h.symm
    have hcc : (ProcessManager.chargeCurrent
        { pm with scheduler_tick := (pm.scheduler_tick + 1) % U32 }).processes
        = pm.processes.set c0 (chargeProc (pm.processes.getD c0 defaultProcess)) := by
      unfold ProcessManager.chargeCurrent
      simp only [hpos]
    have hpids2 : (pm.processes.set c0
        (chargeProc (pm.processes.getD c0 defaultProcess))).map Process.pid
        = pm.processes.map Process.pid := by
      rw [List.map_set, chargeProc_pid]
      rw [← pidAt_eq hc0]
      exact set_getD_self _ (by omega)
    have hfiPm : pm.findIdxCurrent = c0 := by
      unfold ProcessManager.findIdxCurrent
      simp only [hpos]
    have hfi : ProcessManager.findIdxCurrent
        (ProcessManager.chargeCurrent
          { pm with scheduler_tick := (pm.scheduler_tick + 1) % U32 }) = pm.findIdxCurrent := by
      unfold ProcessManager.findIdxCurrent
      simp only [chargeCurrent_current, hcc]
      have : listPosition (fun p => p.pid == pm.current_pid)
          (pm.processes.set c0 (chargeProc (pm.processes.getD c0 defaultProcess)))
          = some c0 := by
        rw [hcur]
        rw [show (pm.processes.getD c0 defaultProcess).pid
            = ((pm.processes.set c0 (chargeProc (pm.processes.getD c0 defaultProcess))).getD
                c0 defaultProcess).pid from by
          rw [getD_set_self _ _ _ hc0, chargeProc_pid]]
        exact listPosition_pid_nodup (by rw [hpids2]; exact hnd)
          (by rw [List.length_set]; exact hc0)
      simp only [this, hpos]
    have hready2 : ∀ j, j < (pm.processes.map Process.pid).length →
        ((ProcessManager.chargeCurrent
          { pm with scheduler_tick := (pm.scheduler_tick + 1) % U32 }).processes.getD j
          defaultProcess).state = .Ready := by
      intro j hj
      rw [hcc]
      by_cases hjc : j = c0
      · subst hjc
        rw [getD_set_self _ _ _ hc0]
        exact chargeProc_ready _ (hreadyD j hc0)
      · rw [getD_set_ne _ _ _ (Ne.symm hjc)]
        exact hreadyD j (by omega)
    exact rr_base_aux (by rw [hcc, hpids2]) hfi (by omega) hready2

/-- Unrolling `scheduleRun` from the back. -/
theorem scheduleRun_snoc : ∀ (n : Nat) (pm : ProcessManager),
    scheduleRun (n + 1) pm
      = ((scheduleRun n pm).1 ++ [(scheduleRun n pm).2.schedule.1],
         (scheduleRun n pm).2.schedule.2)
  | 0, pm => rfl
  | n + 1, pm => by
    rw [show scheduleRun (n + 1 + 1) pm
        = (pm.schedule.1 :: (scheduleRun (n + 1) pm.schedule.2).1,
           (scheduleRun (n + 1) pm.schedule.2).2) from rfl]
    rw [scheduleRun_snoc n pm.schedule.2]
    rw [show scheduleRun (n + 1) pm
        = (pm.schedule.1 :: (scheduleRun n pm.schedule.2).1,
           (scheduleRun n pm.schedule.2).2) from rfl]
    simp

/-- k schedule calls, 1 ≤ k ≤ N, return the round-robin sequence and keep
the invariant. -/
theorem rr_iter {pm : ProcessManager}
    (hne : 1 ≤ pm.processes.length)
    (hready : ∀ p ∈ pm.processes, p.state = ProcessState.Ready)
    (hnd : (pm.processes.map Process.pid).Nodup) :
    ∀ k, 1 ≤ k → k ≤ (pm.processes.map Process.pid).length →
      (scheduleRun k pm).1 = (List.range k).map (fun i =>
        some ((pm.processes.map Process.pid).getD
          ((pm.findIdxCurrent + 1 + i) % (pm.processes.map Process.pid).length) 0)) ∧
      RRInv (pm.processes.map Process.pid) pm.findIdxCurrent k (scheduleRun k pm).2 := by
  intro k
  induction k with
  | zero => intro h; omega
  | succ k ih =>
    intro _ hkN
    rcases Nat.eq_zero_or_pos k with hk0 | hk1
    · subst hk0
      have hb := rr_base hne hready hnd
      constructor
      · show [pm.schedule.1] = _
        rw [hb.1]
        rfl
      · exact hb.2
    · have hs := ih hk1 (by omega)
      have hstep := rr_step hnd hk1 (by omega) hs.2
      rw [scheduleRun_snoc]
      constructor
      · show (scheduleRun k pm).1 ++ [(scheduleRun k pm).2.schedule.1] = _
        rw [hs.1, hstep.1, List.range_succ, List.map_append]
        rw [show pm.findIdxCurrent + (k + 1) = pm.findIdxCurrent + 1 + k from by omega]
        rfl
      · exact hstep.2

/-- Claim C5: for every N ≥ 1, if the process table holds exactly N
processes, all Ready, with pairwise-distinct pids and equal time slices,
then N consecutive `schedule()` calls return the pids in strict round-robin
table order starting after the current index (wrapping) — so each of the N
pids is returned exactly once before any pid is returned a second time —
and the `priority` field is never consulted (the conclusion holds for
arbitrary priority values). -/
theorem round_robin_fairness (pm : ProcessManager) (ts : Nat)
    (hne : 1 ≤ pm.processes.length)
    (hready : ∀ p ∈ pm.processes, p.state = ProcessState.Ready)
    (hnd : (pm.processes.map Process.pid).Nodup)
    (hts : ∀ p ∈ pm.processes, p.time_slice = ts) :
    (scheduleRun pm.processes.length pm).1
      = (List.range pm.processes.length).map (fun i =>
          some ((pm.processes.map Process.pid).getD
            ((pm.findIdxCurrent + 1 + i) % pm.processes.length) 0)) ∧
    (scheduleRun pm.processes.length pm).1.Perm
      ((pm.processes.map Process.pid).map some) := by
  have hlenP : (pm.processes.map Process.pid).length = pm.processes.length :=
    List.length_map _ _
  have h := rr_iter hne hready hnd pm.processes.length (by omega) (by omega)
  have h1 := h.1
  rw [hlenP] at h1
  have hrot : (List.range pm.processes.length).map (fun i =>
      (pm.processes.map Process.pid).getD
        ((pm.findIdxCurrent + 1 + i) % pm.processes.length) 0)
      = (pm.processes.map Process.pid).rotate (pm.findIdxCurrent + 1) := by
    apply List.ext_getElem
    · simp [List.length_rotate, hlenP]
    · intro i h1' h2'
      have hi : i < pm.processes.length := by simpa using h1'
      have hmodlt : (pm.findIdxCurrent + 1 + i) % pm.processes.length
          < (pm.processes.map Process.pid).length := by
        rw [hlenP]
        exact Nat.mod_lt _ (by omega)
      have hix : (pm.findIdxCurrent + 1 + i) % pm.processes.length
          = (i + (pm.findIdxCurrent + 1)) % (pm.processes.map Process.pid).length := by
        rw [hlenP]
        congr 1
        omega
      have hblt : (i + (pm.findIdxCurrent + 1)) % (pm.processes.map Process.pid).length
          < (pm.processes.map Process.pid).length := by
        rw [hlenP]
        exact Nat.mod_lt _ (by omega)
      rw [List.getElem_map, List.getElem_range, List.getElem_rotate,
        ← getD_lt (pm.processes.map Process.pid) 0 hblt, hix]
  constructor
  · exact h1
  · rw [h1]
    have hmm : (List.range pm.processes.length).map (fun i =>
        some ((pm.processes.map Process.pid).getD
          ((pm.findIdxCurrent + 1 + i) % pm.processes.length) 0))
        = ((List.range pm.processes.length).map (fun i =>
            (pm.processes.map Process.pid).getD
              ((pm.findIdxCurrent + 1 + i) % pm.processes.length) 0)).map some := by
      rw [List.map_map]
      rfl
    rw [hmm, hrot]
    exact (List.rotate_perm _ _).map some

/-- Witness for `round_robin_fairness`: two Ready processes (pids 1, 2)
with equal time slices; two calls return each pid exactly once. -/
theorem round_robin_fairness_witness :
    (scheduleRun rrDemoPM.processes.length rrDemoPM).1
      = (List.range rrDemoPM.processes.length).map (fun i =>
          some ((rrDemoPM.processes.map Process.pid).getD
            ((rrDemoPM.findIdxCurrent + 1 + i) % rrDemoPM.processes.length) 0)) ∧
    (scheduleRun rrDemoPM.processes.length rrDemoPM).1.Perm
      ((rrDemoPM.processes.map Process.pid).map some) :=
  round_robin_fairness rrDemoPM 10 (by decide) (by decide) (by decide) (by decide)
